import Mathlib

/-!
# A verification development for a minimal terminal text editor

The program is a full-screen terminal text editor keeping a buffer of lines
of characters, a cursor, a viewport row offset and an optional file path.
This file gives a shallow embedding of its editor-state operations
(`open`, `save`, cursor movement, `insert`, `back_space`, `delete`,
`scroll` and the renderer `draw`) and proves properties about them.

The terminal size is an ambient input of the program; every operation that
reads it takes the terminal's row count `rows` (and the renderer also its
column count `cols`) as an explicit argument.  The renderer's per-character
display width comes from an external Unicode width table; the embedding
takes it as a function parameter `width : Char → Nat`, so the theorems hold
for every width assignment.
-/

/-- A cursor position: logical row and column into the buffer. -/
structure Cursor where
  row : Nat
  column : Nat
deriving DecidableEq, Repr

/-- The whole editor state: buffer of lines, cursor, viewport row offset,
optional associated file path. -/
structure EditerState where
  buffer : List (List Char)
  cursor : Cursor
  row_offset : Nat
  path : Option String
deriving DecidableEq, Repr

namespace EditerState

/-- The `Default` state: one empty line, cursor at the origin, no path. -/
def default : EditerState :=
  { buffer := [[]], cursor := ⟨0, 0⟩, row_offset := 0, path := none }

/-- `char::is_control`: the Unicode `Cc` general category,
`U+0000..=U+001F` and `U+007F..=U+009F`. -/
def isControl (c : Char) : Bool :=
  c.toNat < 0x20 || (0x7F ≤ c.toNat && c.toNat ≤ 0x9F)

/-- `char::is_whitespace`: the Unicode `White_Space` property. -/
def isWhitespace (c : Char) : Bool :=
  (0x09 ≤ c.toNat && c.toNat ≤ 0x0D) || c.toNat = 0x20 || c.toNat = 0x85 ||
  c.toNat = 0xA0 || c.toNat = 0x1680 ||
  (0x2000 ≤ c.toNat && c.toNat ≤ 0x200A) || c.toNat = 0x2028 ||
  c.toNat = 0x2029 || c.toNat = 0x202F || c.toNat = 0x205F || c.toNat = 0x3000

/-- `str::trim_end`: drop trailing whitespace characters. -/
def trimEnd (l : List Char) : List Char :=
  (l.reverse.dropWhile isWhitespace).reverse

/-- Strip one trailing carriage return, as `str::lines` does on each
newline-terminated segment. -/
def stripCR (l : List Char) : List Char :=
  if l.getLast? = some '\r' then l.dropLast else l

/-- `str::lines`: split on `'\n'`, stripping one `'\r'` from the end of each
segment that was terminated by a `'\n'`; a final segment without a
terminating `'\n'` is yielded as is, and a trailing `'\n'` produces no empty
final segment.  `cur` carries the current segment reversed. -/
def linesAux (cur : List Char) : List Char → List (List Char)
  | [] => if cur = [] then [] else [cur.reverse]
  | c :: rest =>
    if c = '\n' then stripCR cur.reverse :: linesAux [] rest
    else linesAux (c :: cur) rest

/-- `str::lines` on a character list. -/
def rustLines (s : List Char) : List (List Char) :=
  linesAux [] s

/-- The buffer built by `open` from the file's text: split into lines, trim
trailing whitespace from each, and substitute a single empty line when the
result is empty. -/
def loadBuffer (s : List Char) : List (List Char) :=
  let b := (rustLines s).map trimEnd
  if b.isEmpty then [[]] else b

/-- `EditerState::open`.  Reading the file is an external effect; its result
is the parameter `content` (`none` models a read failure, in which case the
buffer is a single empty line).  The path is recorded, the cursor and the
row offset reset, in every case. -/
def openFile (content : Option (List Char)) (p : String)
    (_s : EditerState) : EditerState :=
  { buffer :=
      match content with
      | some text => loadBuffer text
      | none => [[]],
    cursor := ⟨0, 0⟩,
    row_offset := 0,
    path := some p }

/-- The text `EditerState::save` writes: every line followed by one
newline. -/
def serialize (buffer : List (List Char)) : List Char :=
  buffer.flatMap (fun line => line ++ ['\n'])

/-- `EditerState::save`: when a path is present, create that file and write
the serialized buffer to it (the write is an external effect, modelled by
returning the attempted path and contents); when no path is present nothing
is attempted. -/
def save (s : EditerState) : Option (String × List Char) :=
  s.path.map (fun p => (p, serialize s.buffer))

/-- `EditerState::scroll`: clamp `row_offset` down to `cursor.row`, and when
`cursor.row + 1 ≥ rows` raise it to at least `cursor.row + 1 - rows`. -/
def scroll (rows : Nat) (s : EditerState) : EditerState :=
  let ro := min s.row_offset s.cursor.row
  if s.cursor.row + 1 ≥ rows then
    { s with row_offset := max ro (s.cursor.row + 1 - rows) }
  else
    { s with row_offset := ro }

/-- `EditerState::cursor_up`. -/
def cursor_up (rows : Nat) (s : EditerState) : EditerState :=
  let s1 :=
    if s.cursor.row > 0 then
      let r := s.cursor.row - 1
      { s with cursor := ⟨r, min ((s.buffer.getD r []).length) s.cursor.column⟩ }
    else s
  s1.scroll rows

/-- `EditerState::cursor_dwon` (sic). -/
def cursor_dwon (rows : Nat) (s : EditerState) : EditerState :=
  let s1 :=
    if s.cursor.row + 1 < s.buffer.length then
      let r := s.cursor.row + 1
      { s with cursor := ⟨r, min s.cursor.column ((s.buffer.getD r []).length)⟩ }
    else s
  s1.scroll rows

/-- `EditerState::cursor_left`. -/
def cursor_left (rows : Nat) (s : EditerState) : EditerState :=
  let s1 :=
    if s.cursor.column > 0 then
      { s with cursor := ⟨s.cursor.row, s.cursor.column - 1⟩ }
    else s
  s1.scroll rows

/-- `EditerState::cursor_right`. -/
def cursor_right (rows : Nat) (s : EditerState) : EditerState :=
  ({ s with cursor :=
      ⟨s.cursor.row,
       min (s.cursor.column + 1) ((s.buffer.getD s.cursor.row []).length)⟩
   } : EditerState).scroll rows

/-- `EditerState::insert`: a newline splits the current line at the cursor;
a non-control character is inserted at the cursor column and the cursor
moves right; any other control character is ignored. -/
def insert (rows : Nat) (c : Char) (s : EditerState) : EditerState :=
  if c = '\n' then
    let line := s.buffer.getD s.cursor.row []
    let kept := line.take s.cursor.column
    let rest := line.drop s.cursor.column
    ({ s with
       buffer := (s.buffer.set s.cursor.row kept).insertIdx (s.cursor.row + 1) rest,
       cursor := ⟨s.cursor.row + 1, 0⟩ } : EditerState).scroll rows
  else if ¬ isControl c then
    ({ s with
       buffer := s.buffer.set s.cursor.row
         ((s.buffer.getD s.cursor.row []).insertIdx s.cursor.column c)
     } : EditerState).cursor_right rows
  else s

/-- `EditerState::back_space`: no-op at the origin; at column `0` join the
current line onto the previous one; otherwise move left and remove the
character at the new cursor column. -/
def back_space (rows : Nat) (s : EditerState) : EditerState :=
  if s.cursor = ⟨0, 0⟩ then s
  else if s.cursor.column = 0 then
    let line := s.buffer.getD s.cursor.row []
    let buf := s.buffer.eraseIdx s.cursor.row
    let r := s.cursor.row - 1
    let prev := buf.getD r []
    { s with
      buffer := buf.set r (prev ++ line),
      cursor := ⟨r, prev.length⟩ }
  else
    let s1 := s.cursor_left rows
    { s1 with
      buffer := s1.buffer.set s1.cursor.row
        ((s1.buffer.getD s1.cursor.row []).eraseIdx s1.cursor.column) }

/-- `EditerState::delete`: no-op at the very end of the buffer; at the end
of a non-final line join the next line onto the current one; otherwise
remove the character at the cursor column.  The cursor is never moved. -/
def delete (s : EditerState) : EditerState :=
  let line := s.buffer.getD s.cursor.row []
  if s.cursor.row = s.buffer.length - 1 ∧ s.cursor.column = line.length then s
  else if s.cursor.column = line.length then
    let next := s.buffer.getD (s.cursor.row + 1) []
    { s with
      buffer := (s.buffer.eraseIdx (s.cursor.row + 1)).set s.cursor.row
        (line ++ next) }
  else
    { s with buffer := s.buffer.set s.cursor.row (line.eraseIdx s.cursor.column) }

/-- One character placed on the screen by `draw`: its logical position
`(li, lj)` in the buffer, the screen position `(preRow, preCol)` the scan
held when it reached that logical position (where the cursor check is
made), the screen cell `(row, col)` at which the character is actually
written (after any forced wrap), and the character. -/
structure Cell where
  li : Nat
  lj : Nat
  preRow : Nat
  preCol : Nat
  row : Nat
  col : Nat
  ch : Char
deriving DecidableEq, Repr

/-- The observable outcome of `draw`: the scan's current screen row and
column, the located screen cell for the logical cursor (if found), and the
characters placed so far with their screen cells. -/
structure DrawState where
  row : Nat
  col : Nat
  display_cursor : Option (Nat × Nat)
  cells : List Cell
deriving DecidableEq, Repr

/-- The cursor check made at the top of the inner loop body: when the
logical scan position `(i, j)` is the cursor, record the scan's current
screen position as the display cursor. -/
def checkCursor (cur : Cursor) (i j : Nat) (s : DrawState) : DrawState :=
  if cur = ⟨i, j⟩ then { s with display_cursor := some (s.row, s.col) } else s

/-- The inner loop of `EditerState::draw` over one buffer line `i`, from
character index `j` on (the iteration space is `0..=len`, so the index
`j = len` performs only the cursor check).  Returns the updated state and
whether the labelled outer loop was broken because the screen filled up. -/
def drawChars (rows cols : Nat) (width : Char → Nat) (cur : Cursor)
    (i : Nat) (j : Nat) (chars : List Char) (s : DrawState) :
    DrawState × Bool :=
  let s1 := checkCursor cur i j s
  match chars with
  | [] => (s1, false)
  | c :: rest =>
    let w := width c
    if s1.col + w ≥ cols then
      let row2 := s1.row + 1
      if row2 ≥ rows then ({ s1 with row := row2, col := 0 }, true)
      else
        let s2 : DrawState :=
          ⟨row2, w, s1.display_cursor, s1.cells ++ [⟨i, j, s1.row, s1.col, row2, 0, c⟩]⟩
        drawChars rows cols width cur i (j + 1) rest s2
    else
      let s2 : DrawState :=
        ⟨s1.row, s1.col + w, s1.display_cursor,
         s1.cells ++ [⟨i, j, s1.row, s1.col, s1.row, s1.col, c⟩]⟩
      drawChars rows cols width cur i (j + 1) rest s2

/-- The outer loop of `EditerState::draw` over the buffer lines from index
`i` (`= row_offset`) on: scan each line, then advance to the next screen
row, stopping when the screen is full. -/
def drawLines (rows cols : Nat) (width : Char → Nat) (cur : Cursor)
    (i : Nat) (lines : List (List Char)) (s : DrawState) : DrawState :=
  match lines with
  | [] => s
  | line :: rest =>
    let r := drawChars rows cols width cur i 0 line s
    if r.2 then r.1
    else
      let s2 : DrawState := ⟨r.1.row + 1, 0, r.1.display_cursor, r.1.cells⟩
      if s2.row ≥ rows then s2
      else drawLines rows cols width cur (i + 1) rest s2

/-- `EditerState::draw` for a terminal of `rows × cols` cells and a display
width assignment `width`: scan the buffer from `row_offset`, wrapping and
placing characters and locating the cursor's screen cell. -/
def draw (rows cols : Nat) (width : Char → Nat) (s : EditerState) : DrawState :=
  drawLines rows cols width s.cursor s.row_offset
    (s.buffer.drop s.row_offset) ⟨0, 0, none, []⟩

/-- The characters written to screen row `r`, in order, as placed by the
scan. -/
def rowChars (d : DrawState) (r : Nat) : List Char :=
  (d.cells.filter (fun cell => cell.row = r)).map Cell.ch

/-- The cursor-validity invariant: the cursor row indexes a buffer line and
the column is at most that line's length (the buffer also being
nonempty). -/
def cursorValid (s : EditerState) : Prop :=
  0 < s.buffer.length ∧
  s.cursor.row < s.buffer.length ∧
  s.cursor.column ≤ (s.buffer.getD s.cursor.row []).length

instance (s : EditerState) : Decidable (cursorValid s) := by
  unfold cursorValid; infer_instance

/-- The viewport invariant for a terminal with `rows` text rows. -/
def viewportInv (rows : Nat) (s : EditerState) : Prop :=
  s.row_offset ≤ s.cursor.row ∧ s.cursor.row < s.row_offset + rows

instance (rows : Nat) (s : EditerState) : Decidable (viewportInv rows s) := by
  unfold viewportInv; infer_instance

/-! ## Field lemmas for `scroll` -/

theorem scroll_buffer (rows : Nat) (s : EditerState) :
    (s.scroll rows).buffer = s.buffer := by
  unfold scroll; split <;> rfl

theorem scroll_cursor (rows : Nat) (s : EditerState) :
    (s.scroll rows).cursor = s.cursor := by
  unfold scroll; split <;> rfl

theorem scroll_path (rows : Nat) (s : EditerState) :
    (s.scroll rows).path = s.path := by
  unfold scroll; split <;> rfl

theorem scroll_row_offset (rows : Nat) (s : EditerState) :
    (s.scroll rows).row_offset =
      if s.cursor.row + 1 ≥ rows then
        max (min s.row_offset s.cursor.row) (s.cursor.row + 1 - rows)
      else min s.row_offset s.cursor.row := by
  unfold scroll; split <;> rfl

/-- After `scroll`, the viewport invariant holds, for any prior state, as
soon as the terminal has at least one row. -/
theorem scroll_viewportInv (rows : Nat) (s : EditerState) (h : 0 < rows) :
    viewportInv rows (s.scroll rows) := by
  unfold viewportInv
  rw [scroll_row_offset, scroll_cursor]
  split <;> constructor <;> omega

/-- The viewport invariant only reads `row_offset` and `cursor.row`. -/
theorem viewportInv_congr {rows : Nat} {t u : EditerState}
    (h1 : t.row_offset = u.row_offset) (h2 : t.cursor.row = u.cursor.row)
    (h : viewportInv rows u) : viewportInv rows t := by
  unfold viewportInv at h ⊢
  rw [h1, h2]; exact h

/-- `delete` changes neither the cursor nor the row offset. -/
theorem delete_cursor (s : EditerState) : s.delete.cursor = s.cursor := by
  simp only [delete]
  split
  · rfl
  · split <;> rfl

theorem delete_row_offset (s : EditerState) :
    s.delete.row_offset = s.row_offset := by
  simp only [delete]
  split
  · rfl
  · split <;> rfl

/-! ## Per-operation viewport lemmas -/

theorem cursor_up_viewportInv (rows : Nat) (s : EditerState) (h : 0 < rows) :
    viewportInv rows (s.cursor_up rows) := by
  simp only [cursor_up]
  exact scroll_viewportInv rows _ h

theorem cursor_dwon_viewportInv (rows : Nat) (s : EditerState) (h : 0 < rows) :
    viewportInv rows (s.cursor_dwon rows) := by
  simp only [cursor_dwon]
  exact scroll_viewportInv rows _ h

theorem cursor_left_viewportInv (rows : Nat) (s : EditerState) (h : 0 < rows) :
    viewportInv rows (s.cursor_left rows) := by
  simp only [cursor_left]
  exact scroll_viewportInv rows _ h

theorem cursor_right_viewportInv (rows : Nat) (s : EditerState) (h : 0 < rows) :
    viewportInv rows (s.cursor_right rows) := by
  simp only [cursor_right]
  exact scroll_viewportInv rows _ h

theorem insert_viewportInv (rows : Nat) (c : Char) (s : EditerState)
    (h : 0 < rows) (hv : viewportInv rows s) :
    viewportInv rows (s.insert rows c) := by
  simp only [insert]
  split
  · exact scroll_viewportInv rows _ h
  · split
    · exact cursor_right_viewportInv rows _ h
    · exact hv

theorem delete_viewportInv (rows : Nat) (s : EditerState)
    (hv : viewportInv rows s) : viewportInv rows s.delete :=
  viewportInv_congr (delete_row_offset s) (by rw [delete_cursor]) hv

theorem back_space_viewportInv (rows : Nat) (s : EditerState) (h : 0 < rows)
    (hv : viewportInv rows s) (hb : s.cursor.column = 0 → s.cursor.row = 0) :
    viewportInv rows (s.back_space rows) := by
  simp only [back_space]
  split
  · exact hv
  · rename_i hcur
    split
    · rename_i hcol
      exact absurd (Cursor.mk.injEq .. ▸ ⟨hb hcol, hcol⟩ : s.cursor = ⟨0, 0⟩) hcur
    · exact viewportInv_congr rfl rfl (scroll_viewportInv rows _ h)

/-! ## Claim C1 -/

/-- **C1** (as stated, refuted): the viewport invariant is *not* preserved
by every operation.  In the state with six empty lines, cursor `(5, 0)` and
`row_offset 5` — which satisfies both the cursor-validity and the viewport
invariant for a one-row terminal — `back_space` joins line 5 onto line 4,
moving the cursor to row 4 while leaving `row_offset` at 5, so afterwards
`first_visible_row ≤ cursor.row` fails. -/
theorem C1_counterexample :
    cursorValid ⟨[[], [], [], [], [], []], ⟨5, 0⟩, 5, none⟩ ∧
    viewportInv 1 ⟨[[], [], [], [], [], []], ⟨5, 0⟩, 5, none⟩ ∧
    ¬ viewportInv 1
        (back_space 1 ⟨[[], [], [], [], [], []], ⟨5, 0⟩, 5, none⟩) := by
  decide

/-- **C1** (amended): for a terminal with at least one row, the viewport
invariant `row_offset ≤ cursor.row < row_offset + rows` holds after every
cursor move, after `insert`, and after `delete`; it holds after
`back_space` except in the line-joining case (cursor at column 0 of a row
other than 0), where the code moves the cursor up a row without re-running
the reclamp. -/
theorem C1_viewport_invariant (rows : Nat) (s : EditerState) (h : 0 < rows)
    (hv : viewportInv rows s) :
    viewportInv rows (s.cursor_up rows) ∧
    viewportInv rows (s.cursor_dwon rows) ∧
    viewportInv rows (s.cursor_left rows) ∧
    viewportInv rows (s.cursor_right rows) ∧
    (∀ c, viewportInv rows (s.insert rows c)) ∧
    viewportInv rows s.delete ∧
    ((s.cursor.column = 0 → s.cursor.row = 0) →
      viewportInv rows (s.back_space rows)) :=
  ⟨cursor_up_viewportInv rows s h, cursor_dwon_viewportInv rows s h,
   cursor_left_viewportInv rows s h, cursor_right_viewportInv rows s h,
   fun c => insert_viewportInv rows c s h hv, delete_viewportInv rows s hv,
   fun hb => back_space_viewportInv rows s h hv hb⟩

/-- Witness for `C1_viewport_invariant` at a concrete state. -/
theorem C1_viewport_invariant_witness :
    0 < (3 : Nat) ∧ viewportInv 3 EditerState.default ∧
    (viewportInv 3 (EditerState.default.cursor_up 3) ∧
     viewportInv 3 (EditerState.default.cursor_dwon 3) ∧
     viewportInv 3 (EditerState.default.cursor_left 3) ∧
     viewportInv 3 (EditerState.default.cursor_right 3) ∧
     (∀ c, viewportInv 3 (EditerState.default.insert 3 c)) ∧
     viewportInv 3 EditerState.default.delete ∧
     ((EditerState.default.cursor.column = 0 →
        EditerState.default.cursor.row = 0) →
       viewportInv 3 (EditerState.default.back_space 3))) :=
  ⟨by decide, by decide,
   C1_viewport_invariant 3 EditerState.default (by decide) (by decide)⟩

/-! ## Claim C9 -/

/-- **C9**: the viewport reclamp is idempotent: with the cursor (and the
terminal height) unchanged, a second `scroll` does not alter
`row_offset`. -/
theorem C9_scroll_idempotent (rows : Nat) (s : EditerState) :
    ((s.scroll rows).scroll rows).row_offset = (s.scroll rows).row_offset := by
  simp only [scroll_row_offset, scroll_cursor]
  split <;> omega

/-! ## Field lemmas for the cursor moves -/

theorem cursor_left_cursor (rows : Nat) (s : EditerState) :
    (s.cursor_left rows).cursor = ⟨s.cursor.row, s.cursor.column - 1⟩ := by
  simp only [cursor_left]
  split
  · rw [scroll_cursor]
  · rw [scroll_cursor]
    rename_i hc
    have h2 : s.cursor.column - 1 = s.cursor.column := by omega
    rw [h2]

theorem cursor_left_buffer (rows : Nat) (s : EditerState) :
    (s.cursor_left rows).buffer = s.buffer := by
  simp only [cursor_left]
  split <;> rw [scroll_buffer]

theorem cursor_right_cursor (rows : Nat) (s : EditerState) :
    (s.cursor_right rows).cursor =
      ⟨s.cursor.row,
       min (s.cursor.column + 1) ((s.buffer.getD s.cursor.row []).length)⟩ := by
  simp only [cursor_right]
  rw [scroll_cursor]

theorem cursor_right_buffer (rows : Nat) (s : EditerState) :
    (s.cursor_right rows).buffer = s.buffer := by
  simp only [cursor_right]
  rw [scroll_buffer]

/-! ## Claim C8 -/

/-- **C8**: `cursor_left` then `cursor_right` restores the cursor column
whenever the column is positive (the row is never changed); at column 0,
`cursor_left` keeps the column at 0 and the following `cursor_right` takes
it to `min 1 (line length)`. -/
theorem C8_left_right_inverse (rows : Nat) (s : EditerState)
    (hv : cursorValid s) :
    ((s.cursor_left rows).cursor_right rows).cursor.row = s.cursor.row ∧
    (0 < s.cursor.column →
      ((s.cursor_left rows).cursor_right rows).cursor.column =
        s.cursor.column) ∧
    (s.cursor.column = 0 →
      (s.cursor_left rows).cursor.column = 0 ∧
      ((s.cursor_left rows).cursor_right rows).cursor.column =
        min 1 ((s.buffer.getD s.cursor.row []).length)) := by
  obtain ⟨-, -, hcol⟩ := hv
  rw [cursor_right_cursor, cursor_left_buffer, cursor_left_cursor]
  refine ⟨rfl, fun h => ?_, fun h => ⟨by simp only; omega, by rw [h]⟩⟩
  simp only
  omega

/-- Witness for `C8_left_right_inverse`: buffer `["ab"]`, cursor
`(0, 1)`. -/
theorem C8_left_right_inverse_witness :
    cursorValid ⟨[['a', 'b']], ⟨0, 1⟩, 0, none⟩ ∧
    (((⟨[['a', 'b']], ⟨0, 1⟩, 0, none⟩ : EditerState).cursor_left
        4).cursor_right 4).cursor.row =
      (⟨[['a', 'b']], ⟨0, 1⟩, 0, none⟩ : EditerState).cursor.row ∧
    (0 < (⟨[['a', 'b']], ⟨0, 1⟩, 0, none⟩ : EditerState).cursor.column →
      (((⟨[['a', 'b']], ⟨0, 1⟩, 0, none⟩ : EditerState).cursor_left
          4).cursor_right 4).cursor.column =
        (⟨[['a', 'b']], ⟨0, 1⟩, 0, none⟩ : EditerState).cursor.column) ∧
    ((⟨[['a', 'b']], ⟨0, 1⟩, 0, none⟩ : EditerState).cursor.column = 0 →
      ((⟨[['a', 'b']], ⟨0, 1⟩, 0, none⟩ : EditerState).cursor_left
          4).cursor.column = 0 ∧
      (((⟨[['a', 'b']], ⟨0, 1⟩, 0, none⟩ : EditerState).cursor_left
          4).cursor_right 4).cursor.column =
        min 1 (((⟨[['a', 'b']], ⟨0, 1⟩, 0, none⟩ : EditerState).buffer.getD
          (⟨[['a', 'b']], ⟨0, 1⟩, 0, none⟩ :
            EditerState).cursor.row []).length)) :=
  ⟨by decide, C8_left_right_inverse 4 ⟨[['a', 'b']], ⟨0, 1⟩, 0, none⟩ (by decide)⟩

/-! ## Claim C10 -/

/-- **C10**: `open` on a path whose read fails still records the path,
substitutes a single empty line, resets the cursor to the origin and the
row offset to 0; a subsequent `save` is not a no-op: it attempts to create
and write that very path (with the single newline the empty buffer
serializes to). -/
theorem C10_open_failure_sets_path (p : String) (s : EditerState) :
    (s.openFile none p).path = some p ∧
    (s.openFile none p).buffer = [[]] ∧
    (s.openFile none p).cursor = ⟨0, 0⟩ ∧
    (s.openFile none p).row_offset = 0 ∧
    (s.openFile none p).save = some (p, ['\n']) :=
  ⟨rfl, rfl, rfl, rfl, rfl⟩

/-! ## Claim C7 -/

/-- **C7**: `delete` never moves the cursor; with the cursor at the end of
a non-final line it joins the next line onto the current one (appending its
content and removing it); at true end-of-buffer it is a no-op; and on the
buffer `["ab", "cd"]` with cursor `(0, 2)` it yields `["abcd"]` with the
cursor still at `(0, 2)`. -/
theorem C7_delete_join (s : EditerState) (hv : cursorValid s) :
    s.delete.cursor = s.cursor ∧
    (s.cursor.column = (s.buffer.getD s.cursor.row []).length →
      s.cursor.row + 1 < s.buffer.length →
      s.delete.buffer =
        s.buffer.take s.cursor.row ++
          ((s.buffer.getD s.cursor.row []) ++
            s.buffer.getD (s.cursor.row + 1) []) ::
          s.buffer.drop (s.cursor.row + 2)) ∧
    (s.cursor.row = s.buffer.length - 1 ∧
      s.cursor.column = (s.buffer.getD s.cursor.row []).length →
      s.delete = s) ∧
    delete ⟨[['a', 'b'], ['c', 'd']], ⟨0, 2⟩, 0, none⟩ =
      ⟨[['a', 'b', 'c', 'd']], ⟨0, 2⟩, 0, none⟩ := by
  obtain ⟨hpos, hrow, -⟩ := hv
  refine ⟨delete_cursor s, fun hc hr => ?_, fun hend => ?_, by decide⟩
  · simp only [delete]
    rw [if_neg (by omega), if_pos hc]
    have hlen : (s.buffer.take (s.cursor.row + 1)).length = s.cursor.row + 1 := by
      rw [List.length_take]; omega
    rw [List.eraseIdx_eq_take_drop_succ,
      List.set_append, if_pos (by omega),
      List.set_eq_take_cons_drop _ (by omega),
      List.take_take, List.drop_eq_nil_of_le (by omega),
      Nat.min_eq_left (Nat.le_succ _)]
    simp
  · simp only [delete]
    rw [if_pos ⟨hend.1, hend.2⟩]

/-- Witness for `C7_delete_join` at the scenario state. -/
theorem C7_delete_join_witness :
    cursorValid ⟨[['a', 'b'], ['c', 'd']], ⟨0, 2⟩, 0, none⟩ ∧
    (delete ⟨[['a', 'b'], ['c', 'd']], ⟨0, 2⟩, 0, none⟩).cursor =
      (⟨[['a', 'b'], ['c', 'd']], ⟨0, 2⟩, 0, none⟩ : EditerState).cursor :=
  ⟨by decide,
   (C7_delete_join ⟨[['a', 'b'], ['c', 'd']], ⟨0, 2⟩, 0, none⟩ (by decide)).1⟩

/-! ## `getD` helper lemmas -/

theorem getD_set_self {α : Type} (l : List α) (n : Nat) (x d : α)
    (h : n < l.length) : (l.set n x).getD n d = x := by
  rw [List.getD_eq_getElem?_getD, List.getElem?_set, if_pos rfl, if_pos h]
  rfl

theorem getD_set_ne {α : Type} (l : List α) (n m : Nat) (x d : α)
    (h : n ≠ m) : (l.set n x).getD m d = l.getD m d := by
  rw [List.getD_eq_getElem?_getD, List.getElem?_set, if_neg h,
    ← List.getD_eq_getElem?_getD]

theorem getD_eraseIdx_of_lt {α : Type} (l : List α) (i j : Nat) (d : α)
    (h : j < i) : (l.eraseIdx i).getD j d = l.getD j d := by
  rw [List.getD_eq_getElem?_getD, List.getElem?_eraseIdx, if_pos h,
    ← List.getD_eq_getElem?_getD]

theorem getD_insertIdx_self {α : Type} (l : List α) (n : Nat) (x d : α)
    (h : n ≤ l.length) : (l.insertIdx n x).getD n d = x := by
  rw [List.getD_eq_getElem (_ : List α) d
      (by rw [List.length_insertIdx n l h]; omega),
    List.getElem_insertIdx_self l x n h]

/-! ## Cursor-validity preservation, operation by operation -/

theorem cursorValid_congr {t u : EditerState} (h1 : t.buffer = u.buffer)
    (h2 : t.cursor = u.cursor) (h : cursorValid u) : cursorValid t := by
  unfold cursorValid at h ⊢
  rw [h1, h2]; exact h

theorem scroll_cursorValid (rows : Nat) (s : EditerState)
    (h : cursorValid s) : cursorValid (s.scroll rows) :=
  cursorValid_congr (scroll_buffer rows s) (scroll_cursor rows s) h

theorem cursor_up_cursorValid (rows : Nat) (s : EditerState)
    (h : cursorValid s) : cursorValid (s.cursor_up rows) := by
  simp only [cursor_up]
  refine scroll_cursorValid rows _ ?_
  split
  · obtain ⟨h1, h2, -⟩ := h
    exact ⟨h1, by simp only; omega, by simp only; exact Nat.min_le_left _ _⟩
  · exact h

theorem cursor_dwon_cursorValid (rows : Nat) (s : EditerState)
    (h : cursorValid s) : cursorValid (s.cursor_dwon rows) := by
  simp only [cursor_dwon]
  refine scroll_cursorValid rows _ ?_
  split
  · obtain ⟨h1, -, -⟩ := h
    rename_i hr
    exact ⟨h1, by simp only; omega, by simp only; exact Nat.min_le_right _ _⟩
  · exact h

theorem cursor_left_cursorValid (rows : Nat) (s : EditerState)
    (h : cursorValid s) : cursorValid (s.cursor_left rows) := by
  simp only [cursor_left]
  refine scroll_cursorValid rows _ ?_
  split
  · obtain ⟨h1, h2, h3⟩ := h
    exact ⟨h1, h2, by simp only; omega⟩
  · exact h

theorem cursor_right_cursorValid (rows : Nat) (s : EditerState)
    (h : cursorValid s) : cursorValid (s.cursor_right rows) := by
  simp only [cursor_right]
  refine scroll_cursorValid rows _ ?_
  obtain ⟨h1, h2, -⟩ := h
  exact ⟨h1, h2, by simp only; exact Nat.min_le_right _ _⟩

theorem insert_cursorValid (rows : Nat) (c : Char) (s : EditerState)
    (h : cursorValid s) : cursorValid (s.insert rows c) := by
  obtain ⟨h1, h2, h3⟩ := h
  simp only [insert]
  split
  · refine scroll_cursorValid rows _ ?_
    have hlen : ((s.buffer.set s.cursor.row
        ((s.buffer.getD s.cursor.row []).take s.cursor.column)).insertIdx
          (s.cursor.row + 1)
          ((s.buffer.getD s.cursor.row []).drop s.cursor.column)).length =
        s.buffer.length + 1 := by
      rw [List.length_insertIdx _ _ (by rw [List.length_set]; omega),
        List.length_set]
    exact ⟨by simp only; omega, by simp only; omega, Nat.zero_le _⟩
  · split
    · refine cursor_right_cursorValid rows _ ?_
      refine ⟨by simp only [List.length_set]; omega,
        by simp only [List.length_set]; omega, ?_⟩
      simp only
      rw [getD_set_self _ _ _ _ h2,
        List.length_insertIdx _ _ h3]
      omega
    · exact ⟨h1, h2, h3⟩

theorem back_space_cursorValid (rows : Nat) (s : EditerState)
    (h : cursorValid s) : cursorValid (s.back_space rows) := by
  obtain ⟨h1, h2, h3⟩ := h
  simp only [back_space]
  split
  · exact ⟨h1, h2, h3⟩
  · rename_i hcur
    split
    · rename_i hcol
      have hrow : 0 < s.cursor.row := by
        rcases Nat.eq_zero_or_pos s.cursor.row with h0 | h0
        · exact absurd (show s.cursor = ⟨0, 0⟩ from by
            rw [show (⟨0, 0⟩ : Cursor) = ⟨s.cursor.row, s.cursor.column⟩ from by
              rw [h0, hcol]]) hcur
        · exact h0
      have hlen : (s.buffer.eraseIdx s.cursor.row).length =
          s.buffer.length - 1 := by
        rw [List.length_eraseIdx, if_pos h2]
      refine ⟨?_, ?_, ?_⟩
      · simp only [List.length_set]
        omega
      · simp only [List.length_set]
        omega
      · simp only
        rw [getD_set_self _ _ _ _ (by omega)]
        rw [List.length_append]
        omega
    · rename_i hcol
      have hc : (s.cursor_left rows).cursor =
          ⟨s.cursor.row, s.cursor.column - 1⟩ := cursor_left_cursor rows s
      have hb : (s.cursor_left rows).buffer = s.buffer := cursor_left_buffer rows s
      refine ⟨?_, ?_, ?_⟩
      · simp only [List.length_set, hb]
        omega
      · simp only [List.length_set, hb, hc]
        omega
      · simp only [hb, hc]
        rw [getD_set_self _ _ _ _ (by omega), List.length_eraseIdx,
          if_pos (by omega)]
        omega

theorem delete_cursorValid (s : EditerState) (h : cursorValid s) :
    cursorValid s.delete := by
  obtain ⟨h1, h2, h3⟩ := h
  simp only [delete]
  split
  · exact ⟨h1, h2, h3⟩
  · rename_i hend
    split
    · rename_i hcol
      have hrow : s.cursor.row + 1 < s.buffer.length := by
        rcases Nat.lt_or_ge (s.cursor.row + 1) s.buffer.length with hlt | hge
        · exact hlt
        · exact absurd ⟨by omega, hcol⟩ hend
      have hlen : (s.buffer.eraseIdx (s.cursor.row + 1)).length =
          s.buffer.length - 1 := by
        rw [List.length_eraseIdx, if_pos (by omega)]
      refine ⟨?_, ?_, ?_⟩
      · simp only [List.length_set]
        omega
      · simp only [List.length_set]
        omega
      · simp only
        rw [getD_set_self _ _ _ _ (by omega), List.length_append]
        omega
    · rename_i hcol
      refine ⟨by simp only [List.length_set]; omega,
        by simp only [List.length_set]; omega, ?_⟩
      simp only
      rw [getD_set_self _ _ _ _ h2, List.length_eraseIdx, if_pos (by omega)]
      omega

theorem loadBuffer_length_pos (t : List Char) : 0 < (loadBuffer t).length := by
  unfold loadBuffer
  simp only
  split
  · decide
  · rename_i hne
    simpa [List.isEmpty_iff, List.length_pos] using hne

theorem openFile_cursorValid (content : Option (List Char)) (p : String)
    (s : EditerState) : cursorValid (s.openFile content p) := by
  cases content with
  | some t =>
    exact ⟨loadBuffer_length_pos t, loadBuffer_length_pos t, Nat.zero_le _⟩
  | none => exact ⟨Nat.one_pos, Nat.one_pos, Nat.zero_le _⟩

/-! ## Claim C2 -/

/-- **C2**: every operation preserves the cursor-validity invariant:
`cursor.row < buffer.length`, `cursor.column ≤` the length of the cursor's
line, and the buffer stays nonempty (`open` establishes it
unconditionally). -/
theorem C2_cursor_validity (rows : Nat) (s : EditerState)
    (h : cursorValid s) :
    (∀ content p, cursorValid (s.openFile content p)) ∧
    (∀ c, cursorValid (s.insert rows c)) ∧
    cursorValid (s.back_space rows) ∧
    cursorValid s.delete ∧
    cursorValid (s.cursor_up rows) ∧
    cursorValid (s.cursor_dwon rows) ∧
    cursorValid (s.cursor_left rows) ∧
    cursorValid (s.cursor_right rows) :=
  ⟨fun content p => openFile_cursorValid content p s,
   fun c => insert_cursorValid rows c s h,
   back_space_cursorValid rows s h,
   delete_cursorValid s h,
   cursor_up_cursorValid rows s h,
   cursor_dwon_cursorValid rows s h,
   cursor_left_cursorValid rows s h,
   cursor_right_cursorValid rows s h⟩

/-- Witness for `C2_cursor_validity`: buffer `["ab", "cd"]`, cursor
`(1, 1)`, a 2-row terminal. -/
theorem C2_cursor_validity_witness :
    cursorValid ⟨[['a', 'b'], ['c', 'd']], ⟨1, 1⟩, 0, none⟩ ∧
    ((∀ content p, cursorValid
        ((⟨[['a', 'b'], ['c', 'd']], ⟨1, 1⟩, 0, none⟩ :
          EditerState).openFile content p)) ∧
     (∀ c, cursorValid
        ((⟨[['a', 'b'], ['c', 'd']], ⟨1, 1⟩, 0, none⟩ :
          EditerState).insert 2 c)) ∧
     cursorValid ((⟨[['a', 'b'], ['c', 'd']], ⟨1, 1⟩, 0, none⟩ :
       EditerState).back_space 2) ∧
     cursorValid (⟨[['a', 'b'], ['c', 'd']], ⟨1, 1⟩, 0, none⟩ :
       EditerState).delete ∧
     cursorValid ((⟨[['a', 'b'], ['c', 'd']], ⟨1, 1⟩, 0, none⟩ :
       EditerState).cursor_up 2) ∧
     cursorValid ((⟨[['a', 'b'], ['c', 'd']], ⟨1, 1⟩, 0, none⟩ :
       EditerState).cursor_dwon 2) ∧
     cursorValid ((⟨[['a', 'b'], ['c', 'd']], ⟨1, 1⟩, 0, none⟩ :
       EditerState).cursor_left 2) ∧
     cursorValid ((⟨[['a', 'b'], ['c', 'd']], ⟨1, 1⟩, 0, none⟩ :
       EditerState).cursor_right 2)) :=
  ⟨by decide,
   C2_cursor_validity 2 ⟨[['a', 'b'], ['c', 'd']], ⟨1, 1⟩, 0, none⟩ (by decide)⟩

theorem set_getD_self {α : Type} (l : List α) (n : Nat) (d : α)
    (h : n < l.length) : l.set n (l.getD n d) = l := by
  apply List.ext_getElem?
  intro j
  rw [List.getElem?_set]
  by_cases hj : n = j
  · subst hj
    rw [if_pos rfl, if_pos h, List.getD_eq_getElem _ _ h,
      List.getElem?_eq_getElem h]
  · rw [if_neg hj]

/-! ## Branch characterizations of `back_space` -/

theorem back_space_join (rows : Nat) (u : EditerState)
    (hr : u.cursor.row ≠ 0) (hc : u.cursor.column = 0) :
    (u.back_space rows).buffer =
      (u.buffer.eraseIdx u.cursor.row).set (u.cursor.row - 1)
        (((u.buffer.eraseIdx u.cursor.row).getD (u.cursor.row - 1) []) ++
          u.buffer.getD u.cursor.row []) ∧
    (u.back_space rows).cursor =
      ⟨u.cursor.row - 1,
       ((u.buffer.eraseIdx u.cursor.row).getD (u.cursor.row - 1) []).length⟩ := by
  simp only [back_space]
  rw [if_neg (fun hq => hr (by rw [hq])), if_pos hc]
  exact ⟨rfl, rfl⟩

theorem back_space_midline (rows : Nat) (u : EditerState)
    (hc : u.cursor.column ≠ 0) :
    (u.back_space rows).buffer =
      u.buffer.set u.cursor.row
        ((u.buffer.getD u.cursor.row []).eraseIdx (u.cursor.column - 1)) ∧
    (u.back_space rows).cursor = ⟨u.cursor.row, u.cursor.column - 1⟩ := by
  simp only [back_space]
  rw [if_neg (fun hq => hc (by rw [hq])), if_neg hc]
  refine ⟨?_, cursor_left_cursor rows u⟩
  show (u.cursor_left rows).buffer.set (u.cursor_left rows).cursor.row
      (((u.cursor_left rows).buffer.getD (u.cursor_left rows).cursor.row
        []).eraseIdx (u.cursor_left rows).cursor.column) = _
  rw [cursor_left_buffer, cursor_left_cursor]

/-! ## Claim C4 -/

/-- **C4** (as stated, refuted): insert-then-backspace is *not* the
identity for every character.  For a control character (here `U+0001`),
`insert` is a silent no-op but `back_space` still deletes the character
before the cursor: from buffer `["ab"]` with cursor `(0, 1)` the pair of
operations produces `["b"]`. -/
theorem C4_counterexample :
    cursorValid ⟨[['a', 'b']], ⟨0, 1⟩, 0, none⟩ ∧
    ((insert 10 (Char.ofNat 1) ⟨[['a', 'b']], ⟨0, 1⟩, 0, none⟩).back_space
        10).buffer ≠
      (⟨[['a', 'b']], ⟨0, 1⟩, 0, none⟩ : EditerState).buffer := by
  decide

/-- **C4** (amended): for every valid state and every character the editor
actually inserts — a newline or any non-control character — `insert`
followed immediately by `back_space` restores both the buffer and the
cursor.  (For the remaining control characters `insert` is a no-op, so the
following `back_space` deletes pre-existing text.) -/
theorem C4_insert_backspace (rows : Nat) (c : Char) (s : EditerState)
    (h : cursorValid s) (hc : c = '\n' ∨ isControl c = false) :
    ((s.insert rows c).back_space rows).buffer = s.buffer ∧
    ((s.insert rows c).back_space rows).cursor = s.cursor := by
  obtain ⟨-, h2, h3⟩ := h
  rcases hc with hc | hc
  · subst hc
    simp only [insert, if_true]
    set line := s.buffer.getD s.cursor.row [] with hline
    set t : EditerState :=
      { s with
        buffer := (s.buffer.set s.cursor.row
            (line.take s.cursor.column)).insertIdx (s.cursor.row + 1)
            (line.drop s.cursor.column),
        cursor := ⟨s.cursor.row + 1, 0⟩ } with ht
    have hcur : (t.scroll rows).cursor = ⟨s.cursor.row + 1, 0⟩ := by
      rw [scroll_cursor]
    have hbuf : (t.scroll rows).buffer = t.buffer := scroll_buffer rows t
    obtain ⟨hB, hC⟩ := back_space_join rows (t.scroll rows)
      (by rw [hcur]; exact Nat.succ_ne_zero _) (by rw [hcur])
    rw [hcur] at hB hC
    simp only [Nat.add_sub_cancel] at hB hC
    have hsetlen : (s.buffer.set s.cursor.row
        (line.take s.cursor.column)).length = s.buffer.length := by
      rw [List.length_set]
    have herase : (t.scroll rows).buffer.eraseIdx (s.cursor.row + 1) =
        s.buffer.set s.cursor.row (line.take s.cursor.column) := by
      rw [hbuf, ht]
      exact List.eraseIdx_insertIdx (s.cursor.row + 1) _
    have hgetrow : ((t.scroll rows).buffer.eraseIdx
        (s.cursor.row + 1)).getD s.cursor.row [] =
        line.take s.cursor.column := by
      rw [herase]
      exact getD_set_self _ _ _ _ h2
    have hget1 : (t.scroll rows).buffer.getD (s.cursor.row + 1) [] =
        line.drop s.cursor.column := by
      rw [hbuf, ht]
      exact getD_insertIdx_self _ _ _ _ (by rw [hsetlen]; omega)
    constructor
    · rw [hB, hgetrow, hget1, herase, List.take_append_drop,
        List.set_set, hline, set_getD_self _ _ _ h2]
    · rw [hC, hgetrow, List.length_take, Nat.min_eq_left h3]
  · have hne1 : ¬ (c = '\n') := fun hq => by
      rw [hq] at hc
      exact absurd hc (by decide)
    have hne2 : ¬ (isControl c = true) := by
      rw [hc]
      exact Bool.false_ne_true
    simp only [insert, if_neg hne1, if_pos hne2]
    set line := s.buffer.getD s.cursor.row [] with hline
    set v : EditerState :=
      { s with
        buffer := s.buffer.set s.cursor.row
          (line.insertIdx s.cursor.column c) } with hv
    have hvget : v.buffer.getD s.cursor.row [] =
        line.insertIdx s.cursor.column c := getD_set_self _ _ _ _ h2
    have htcur : (v.cursor_right rows).cursor =
        ⟨s.cursor.row, s.cursor.column + 1⟩ := by
      rw [cursor_right_cursor]
      rw [show v.cursor = s.cursor from rfl, hvget,
        List.length_insertIdx _ _ h3, Nat.min_eq_left (by omega)]
    have htbuf : (v.cursor_right rows).buffer = v.buffer :=
      cursor_right_buffer rows v
    obtain ⟨hB, hC⟩ := back_space_midline rows (v.cursor_right rows)
      (by rw [htcur]; exact Nat.succ_ne_zero _)
    rw [htcur] at hB hC
    simp only [Nat.add_sub_cancel] at hB hC
    constructor
    · rw [hB, htbuf, hvget, List.eraseIdx_insertIdx]
      show (s.buffer.set s.cursor.row (line.insertIdx s.cursor.column c)).set
          s.cursor.row line = s.buffer
      rw [List.set_set, hline, set_getD_self _ _ _ h2]
    · rw [hC]

/-- Witness for `C4_insert_backspace`: inserting `'x'` in `["ab"]` at
`(0, 1)` and backspacing restores the state. -/
theorem C4_insert_backspace_witness :
    cursorValid ⟨[['a', 'b']], ⟨0, 1⟩, 0, none⟩ ∧
    ('x' = '\n' ∨ isControl 'x' = false) ∧
    (((insert 10 'x' ⟨[['a', 'b']], ⟨0, 1⟩, 0, none⟩).back_space 10).buffer =
        (⟨[['a', 'b']], ⟨0, 1⟩, 0, none⟩ : EditerState).buffer ∧
      ((insert 10 'x' ⟨[['a', 'b']], ⟨0, 1⟩, 0, none⟩).back_space 10).cursor =
        (⟨[['a', 'b']], ⟨0, 1⟩, 0, none⟩ : EditerState).cursor) :=
  ⟨by decide, by decide,
   C4_insert_backspace 10 'x' ⟨[['a', 'b']], ⟨0, 1⟩, 0, none⟩ (by decide)
     (by decide)⟩

/-! ## Claim C5: serialization and parsing lemmas -/

theorem linesAux_append_newline (l : List Char) (hnl : '\n' ∉ l) :
    ∀ (acc rest : List Char),
      linesAux acc (l ++ '\n' :: rest) =
        stripCR (acc.reverse ++ l) :: linesAux [] rest := by
  induction l with
  | nil =>
    intro acc rest
    rw [List.nil_append,
      show linesAux acc ('\n' :: rest) =
        if '\n' = '\n' then stripCR acc.reverse :: linesAux [] rest
        else linesAux ('\n' :: acc) rest from rfl,
      if_pos rfl, List.append_nil]
  | cons c l ih =>
    intro acc rest
    have hc : ¬ (c = '\n') := fun h => hnl (h ▸ List.mem_cons_self c l)
    have hnl' : '\n' ∉ l := fun h => hnl (List.mem_cons_of_mem c h)
    rw [List.cons_append,
      show linesAux acc (c :: (l ++ '\n' :: rest)) =
        if c = '\n' then stripCR acc.reverse :: linesAux [] (l ++ '\n' :: rest)
        else linesAux (c :: acc) (l ++ '\n' :: rest) from rfl,
      if_neg hc, ih hnl' (c :: acc) rest]
    simp [List.append_assoc]

theorem trimEnd_length_lt (xs : List Char) (x : Char)
    (hx : isWhitespace x = true) :
    (trimEnd (xs ++ [x])).length < (xs ++ [x]).length := by
  unfold trimEnd
  rw [List.reverse_append]
  simp only [List.reverse_cons, List.reverse_nil, List.nil_append,
    List.cons_append, List.dropWhile_cons]
  rw [if_pos hx, List.length_reverse, List.length_append]
  have := (List.dropWhile_sublist (l := xs.reverse) isWhitespace).length_le
  rw [List.length_reverse] at this
  simp only [List.length_cons, List.length_nil]
  omega

theorem stripCR_of_trimEnd_fixed (l : List Char) (h : trimEnd l = l) :
    stripCR l = l := by
  induction l using List.reverseRecOn with
  | nil => rfl
  | append_singleton xs x ih =>
    unfold stripCR
    rw [List.getLast?_concat]
    split
    · rename_i hcr
      have hx : x = '\r' := by
        have := Option.some.injEq x '\r' ▸ hcr
        simpa using hcr
      have : (trimEnd (xs ++ [x])).length < (xs ++ [x]).length :=
        trimEnd_length_lt xs x (by rw [hx]; decide)
      rw [h] at this
      exact absurd this (lt_irrefl _)
    · rfl

theorem rustLines_serialize (L : List (List Char))
    (hnl : ∀ l ∈ L, '\n' ∉ l) :
    rustLines (serialize L) = L.map stripCR := by
  induction L with
  | nil => rfl
  | cons l L ih =>
    have h1 : '\n' ∉ l := hnl l (List.mem_cons_self l L)
    have h2 : ∀ m ∈ L, '\n' ∉ m := fun m hm => hnl m (List.mem_cons_of_mem l hm)
    show linesAux [] ((l ++ ['\n']) ++ serialize L) = _
    rw [List.append_assoc, List.singleton_append,
      linesAux_append_newline l h1 [] (serialize L)]
    rw [show linesAux [] (serialize L) = rustLines (serialize L) from rfl, ih h2]
    simp

/-- **C5**: `save` followed by `open` on the same path reproduces the
in-memory line sequence exactly, provided the lines are already normalized
(no trailing whitespace — the normalization `open` would apply — and, per
the data model, no embedded newline; the buffer is nonempty by
invariant). -/
theorem C5_save_open_roundtrip (st s2 : EditerState) (p : String)
    (hp : st.path = some p) (hne : st.buffer ≠ [])
    (htrim : ∀ l ∈ st.buffer, trimEnd l = l)
    (hnl : ∀ l ∈ st.buffer, '\n' ∉ l) :
    st.save = some (p, serialize st.buffer) ∧
    (s2.openFile (some (serialize st.buffer)) p).buffer = st.buffer := by
  constructor
  · rw [save, hp]
    rfl
  · show loadBuffer (serialize st.buffer) = st.buffer
    unfold loadBuffer
    rw [rustLines_serialize st.buffer hnl, List.map_map]
    have hmap : st.buffer.map (trimEnd ∘ stripCR) = st.buffer := by
      rw [show st.buffer.map (trimEnd ∘ stripCR) =
          st.buffer.map id from List.map_congr_left (fun a ha => by
            simp only [Function.comp_apply, id_eq,
              stripCR_of_trimEnd_fixed a (htrim a ha)]
            exact htrim a ha),
        List.map_id]
    simp only [hmap]
    rw [if_neg (by simpa [List.isEmpty_iff] using hne)]

/-- Witness for `C5_save_open_roundtrip`: buffer `["ab", "", "c"]` with
path `"f.txt"`. -/
theorem C5_save_open_roundtrip_witness :
    (⟨[['a', 'b'], [], ['c']], ⟨0, 0⟩, 0, some "f.txt"⟩ :
      EditerState).path = some "f.txt" ∧
    (⟨[['a', 'b'], [], ['c']], ⟨0, 0⟩, 0, some "f.txt"⟩ :
      EditerState).buffer ≠ [] ∧
    ((⟨[['a', 'b'], [], ['c']], ⟨0, 0⟩, 0, some "f.txt"⟩ :
        EditerState).save =
      some ("f.txt",
        serialize (⟨[['a', 'b'], [], ['c']], ⟨0, 0⟩, 0, some "f.txt"⟩ :
          EditerState).buffer) ∧
     (EditerState.default.openFile
        (some (serialize (⟨[['a', 'b'], [], ['c']], ⟨0, 0⟩, 0,
          some "f.txt"⟩ : EditerState).buffer)) "f.txt").buffer =
      (⟨[['a', 'b'], [], ['c']], ⟨0, 0⟩, 0, some "f.txt"⟩ :
        EditerState).buffer) :=
  ⟨rfl, by decide,
   C5_save_open_roundtrip ⟨[['a', 'b'], [], ['c']], ⟨0, 0⟩, 0, some "f.txt"⟩
     EditerState.default "f.txt" rfl (by decide) (by decide) (by decide)⟩

/-! ## Renderer lemmas: wrap placement and cursor location -/

/-- A placed character's screen cell relative to the scan position that
reached it: a break is forced exactly when the character's width would make
the column meet or exceed the terminal's column count. -/
def wrapOK (cols : Nat) (width : Char → Nat) (cell : Cell) : Prop :=
  if cols ≤ cell.preCol + width cell.ch then
    cell.row = cell.preRow + 1 ∧ cell.col = 0
  else cell.row = cell.preRow ∧ cell.col = cell.preCol

instance (cols : Nat) (width : Char → Nat) (cell : Cell) :
    Decidable (wrapOK cols width cell) := by
  unfold wrapOK; infer_instance

/-- The logical position `(li, lj)` lies strictly before `(i, j)` in scan
order. -/
def before (i j : Nat) (cell : Cell) : Prop :=
  cell.li < i ∨ (cell.li = i ∧ cell.lj < j)

/-- Every already-placed cell at the cursor's logical position has the
display cursor recorded at that cell's pre-wrap screen position. -/
def cursorCellInv (cur : Cursor) (d : DrawState) : Prop :=
  ∀ cell ∈ d.cells, cell.li = cur.row → cell.lj = cur.column →
    d.display_cursor = some (cell.preRow, cell.preCol)

theorem checkCursor_cells (cur : Cursor) (i j : Nat) (s : DrawState) :
    (checkCursor cur i j s).cells = s.cells := by
  unfold checkCursor; split <;> rfl

theorem checkCursor_row (cur : Cursor) (i j : Nat) (s : DrawState) :
    (checkCursor cur i j s).row = s.row := by
  unfold checkCursor; split <;> rfl

theorem checkCursor_col (cur : Cursor) (i j : Nat) (s : DrawState) :
    (checkCursor cur i j s).col = s.col := by
  unfold checkCursor; split <;> rfl

theorem checkCursor_dc_eq (cur : Cursor) (i j : Nat) (s : DrawState)
    (hq : cur = ⟨i, j⟩) :
    (checkCursor cur i j s).display_cursor = some (s.row, s.col) := by
  unfold checkCursor; rw [if_pos hq]

theorem checkCursor_inv (cur : Cursor) (i j : Nat) (s : DrawState)
    (H1 : ∀ cell ∈ s.cells, before i j cell) (H2 : cursorCellInv cur s) :
    cursorCellInv cur (checkCursor cur i j s) := by
  unfold checkCursor
  split
  · rename_i hq
    intro cell hcell hli hlj
    exfalso
    have hb := H1 cell hcell
    have hrow : cur.row = i := by rw [hq]
    have hcol : cur.column = j := by rw [hq]
    unfold before at hb
    omega
  · exact H2

/-- Inner-loop induction: every placed cell respects the wrap rule. -/
theorem drawChars_wrapOK (rows cols : Nat) (width : Char → Nat)
    (cur : Cursor) (i : Nat) :
    ∀ (chars : List Char) (j : Nat) (s : DrawState),
      (∀ cell ∈ s.cells, wrapOK cols width cell) →
      ∀ cell ∈ (drawChars rows cols width cur i j chars s).1.cells,
        wrapOK cols width cell := by
  intro chars
  induction chars with
  | nil =>
    intro j s H cell hcell
    simp only [drawChars, checkCursor_cells] at hcell
    exact H cell hcell
  | cons c rest ih =>
    intro j s H
    simp only [drawChars]
    split
    · split
      · intro cell hcell
        simp only [checkCursor_cells] at hcell
        exact H cell hcell
      · rename_i hwrap hrows
        refine ih (j + 1) _ ?_
        intro cell hcell
        rcases List.mem_append.mp (by
            simpa only [checkCursor_cells] using hcell) with h | h
        · exact H cell h
        · rw [List.mem_singleton.mp h]
          unfold wrapOK
          rw [if_pos (by
            simpa only [checkCursor_col] using hwrap)]
          exact ⟨by rw [checkCursor_row], rfl⟩
    · rename_i hwrap
      refine ih (j + 1) _ ?_
      intro cell hcell
      rcases List.mem_append.mp (by
          simpa only [checkCursor_cells] using hcell) with h | h
      · exact H cell h
      · rw [List.mem_singleton.mp h]
        unfold wrapOK
        rw [if_neg (by
          simpa only [checkCursor_col] using hwrap)]
        exact ⟨rfl, rfl⟩

/-- Outer-loop induction for the wrap rule. -/
theorem drawLines_wrapOK (rows cols : Nat) (width : Char → Nat)
    (cur : Cursor) :
    ∀ (lines : List (List Char)) (i : Nat) (s : DrawState),
      (∀ cell ∈ s.cells, wrapOK cols width cell) →
      ∀ cell ∈ (drawLines rows cols width cur i lines s).cells,
        wrapOK cols width cell := by
  intro lines
  induction lines with
  | nil =>
    intro i s H cell hcell
    exact H cell hcell
  | cons line rest ih =>
    intro i s H
    have H1 := drawChars_wrapOK rows cols width cur i line 0 s H
    rcases he : drawChars rows cols width cur i 0 line s with ⟨s1, b⟩
    have hfst : (drawChars rows cols width cur i 0 line s).1 = s1 := by
      rw [he]
    rw [hfst] at H1
    simp only [drawLines, he]
    cases b with
    | true => rw [if_pos rfl]; exact H1
    | false =>
      rw [if_neg (by simp)]
      split
      · exact H1
      · exact ih (i + 1) _ H1

/-- Inner-loop induction for the display-cursor location: the invariant is
carried, and all produced cells are on logical lines up to `i`. -/
theorem drawChars_cursorInv (rows cols : Nat) (width : Char → Nat)
    (cur : Cursor) (i : Nat) :
    ∀ (chars : List Char) (j : Nat) (s : DrawState),
      (∀ cell ∈ s.cells, before i j cell) →
      cursorCellInv cur s →
      cursorCellInv cur (drawChars rows cols width cur i j chars s).1 ∧
      ∀ cell ∈ (drawChars rows cols width cur i j chars s).1.cells,
        cell.li ≤ i := by
  intro chars
  induction chars with
  | nil =>
    intro j s H1 H2
    constructor
    · exact checkCursor_inv cur i j s H1 H2
    · intro cell hcell
      simp only [drawChars, checkCursor_cells] at hcell
      have := H1 cell hcell
      unfold before at this
      omega
  | cons c rest ih =>
    intro j s H1 H2
    have Hinv1 : cursorCellInv cur (checkCursor cur i j s) :=
      checkCursor_inv cur i j s H1 H2
    have Hb1 : ∀ cell ∈ (checkCursor cur i j s).cells, before i j cell := by
      intro cell hcell
      rw [checkCursor_cells] at hcell
      exact H1 cell hcell
    simp only [drawChars]
    split
    · split
      · constructor
        · intro cell hcell hli hlj
          exact Hinv1 cell hcell hli hlj
        · intro cell hcell
          have := Hb1 cell hcell
          unfold before at this
          omega
      · refine ih (j + 1) _ ?_ ?_
        · intro cell hcell
          rcases List.mem_append.mp hcell with h | h
          · have := Hb1 cell h
            unfold before at this ⊢
            omega
          · rw [List.mem_singleton.mp h]
            exact Or.inr ⟨rfl, Nat.lt_succ_self j⟩
        · intro cell hcell hli hlj
          rcases List.mem_append.mp hcell with h | h
          · exact Hinv1 cell h hli hlj
          · rw [List.mem_singleton.mp h] at hli hlj ⊢
            simp only at hli hlj ⊢
            have hq : cur = ⟨i, j⟩ := by rw [hli, hlj]
            rw [checkCursor_dc_eq cur i j s hq, checkCursor_row,
              checkCursor_col]
    · refine ih (j + 1) _ ?_ ?_
      · intro cell hcell
        rcases List.mem_append.mp hcell with h | h
        · have := Hb1 cell h
          unfold before at this ⊢
          omega
        · rw [List.mem_singleton.mp h]
          exact Or.inr ⟨rfl, Nat.lt_succ_self j⟩
      · intro cell hcell hli hlj
        rcases List.mem_append.mp hcell with h | h
        · exact Hinv1 cell h hli hlj
        · rw [List.mem_singleton.mp h] at hli hlj ⊢
          simp only at hli hlj ⊢
          have hq : cur = ⟨i, j⟩ := by rw [hli, hlj]
          rw [checkCursor_dc_eq cur i j s hq, checkCursor_row,
            checkCursor_col]

/-- Outer-loop induction for the display-cursor location. -/
theorem drawLines_cursorInv (rows cols : Nat) (width : Char → Nat)
    (cur : Cursor) :
    ∀ (lines : List (List Char)) (i : Nat) (s : DrawState),
      (∀ cell ∈ s.cells, cell.li < i) →
      cursorCellInv cur s →
      cursorCellInv cur (drawLines rows cols width cur i lines s) := by
  intro lines
  induction lines with
  | nil =>
    intro i s H1 H2
    exact H2
  | cons line rest ih =>
    intro i s H1 H2
    have Hb : ∀ cell ∈ s.cells, before i 0 cell :=
      fun cell hc => Or.inl (H1 cell hc)
    obtain ⟨Hinv, Hle⟩ :=
      drawChars_cursorInv rows cols width cur i line 0 s Hb H2
    rcases he : drawChars rows cols width cur i 0 line s with ⟨s1, b⟩
    have hfst : (drawChars rows cols width cur i 0 line s).1 = s1 := by
      rw [he]
    rw [hfst] at Hinv Hle
    simp only [drawLines, he]
    cases b with
    | true => rw [if_pos rfl]; exact Hinv
    | false =>
      rw [if_neg (by simp)]
      split
      · exact Hinv
      · refine ih (i + 1) _ ?_ Hinv
        intro cell hcell
        have := Hle cell hcell
        omega

/-! ## Concrete renderer evaluations -/

/-- Evaluation of the scan over the line `"abcdefgh"` on a `10 × 5`
terminal, one loop iteration per step. -/
theorem drawChars_eval_scenario :
    drawChars 10 5 (fun _ => 1) ⟨0, 0⟩ 0 0
      ['a', 'b', 'c', 'd', 'e', 'f', 'g', 'h'] ⟨0, 0, none, []⟩ =
    (⟨1, 4, some (0, 0),
      [⟨0, 0, 0, 0, 0, 0, 'a'⟩, ⟨0, 1, 0, 1, 0, 1, 'b'⟩,
       ⟨0, 2, 0, 2, 0, 2, 'c'⟩, ⟨0, 3, 0, 3, 0, 3, 'd'⟩,
       ⟨0, 4, 0, 4, 1, 0, 'e'⟩, ⟨0, 5, 1, 1, 1, 1, 'f'⟩,
       ⟨0, 6, 1, 2, 1, 2, 'g'⟩, ⟨0, 7, 1, 3, 1, 3, 'h'⟩]⟩, false) := by
  calc
    drawChars 10 5 (fun _ => 1) ⟨0, 0⟩ 0 0
        ['a', 'b', 'c', 'd', 'e', 'f', 'g', 'h'] ⟨0, 0, none, []⟩
      = drawChars 10 5 (fun _ => 1) ⟨0, 0⟩ 0 1
          ['b', 'c', 'd', 'e', 'f', 'g', 'h']
          ⟨0, 1, some (0, 0), [⟨0, 0, 0, 0, 0, 0, 'a'⟩]⟩ := by
        conv_lhs => rw [drawChars.eq_def]
        simp [checkCursor]
    _ = drawChars 10 5 (fun _ => 1) ⟨0, 0⟩ 0 2
          ['c', 'd', 'e', 'f', 'g', 'h']
          ⟨0, 2, some (0, 0),
           [⟨0, 0, 0, 0, 0, 0, 'a'⟩, ⟨0, 1, 0, 1, 0, 1, 'b'⟩]⟩ := by
        conv_lhs => rw [drawChars.eq_def]
        simp [checkCursor]
    _ = drawChars 10 5 (fun _ => 1) ⟨0, 0⟩ 0 3
          ['d', 'e', 'f', 'g', 'h']
          ⟨0, 3, some (0, 0),
           [⟨0, 0, 0, 0, 0, 0, 'a'⟩, ⟨0, 1, 0, 1, 0, 1, 'b'⟩,
            ⟨0, 2, 0, 2, 0, 2, 'c'⟩]⟩ := by
        conv_lhs => rw [drawChars.eq_def]
        simp [checkCursor]
    _ = drawChars 10 5 (fun _ => 1) ⟨0, 0⟩ 0 4
          ['e', 'f', 'g', 'h']
          ⟨0, 4, some (0, 0),
           [⟨0, 0, 0, 0, 0, 0, 'a'⟩, ⟨0, 1, 0, 1, 0, 1, 'b'⟩,
            ⟨0, 2, 0, 2, 0, 2, 'c'⟩, ⟨0, 3, 0, 3, 0, 3, 'd'⟩]⟩ := by
        conv_lhs => rw [drawChars.eq_def]
        simp [checkCursor]
    _ = drawChars 10 5 (fun _ => 1) ⟨0, 0⟩ 0 5
          ['f', 'g', 'h']
          ⟨1, 1, some (0, 0),
           [⟨0, 0, 0, 0, 0, 0, 'a'⟩, ⟨0, 1, 0, 1, 0, 1, 'b'⟩,
            ⟨0, 2, 0, 2, 0, 2, 'c'⟩, ⟨0, 3, 0, 3, 0, 3, 'd'⟩,
            ⟨0, 4, 0, 4, 1, 0, 'e'⟩]⟩ := by
        conv_lhs => rw [drawChars.eq_def]
        simp [checkCursor]
    _ = drawChars 10 5 (fun _ => 1) ⟨0, 0⟩ 0 6
          ['g', 'h']
          ⟨1, 2, some (0, 0),
           [⟨0, 0, 0, 0, 0, 0, 'a'⟩, ⟨0, 1, 0, 1, 0, 1, 'b'⟩,
            ⟨0, 2, 0, 2, 0, 2, 'c'⟩, ⟨0, 3, 0, 3, 0, 3, 'd'⟩,
            ⟨0, 4, 0, 4, 1, 0, 'e'⟩, ⟨0, 5, 1, 1, 1, 1, 'f'⟩]⟩ := by
        conv_lhs => rw [drawChars.eq_def]
        simp [checkCursor]
    _ = drawChars 10 5 (fun _ => 1) ⟨0, 0⟩ 0 7
          ['h']
          ⟨1, 3, some (0, 0),
           [⟨0, 0, 0, 0, 0, 0, 'a'⟩, ⟨0, 1, 0, 1, 0, 1, 'b'⟩,
            ⟨0, 2, 0, 2, 0, 2, 'c'⟩, ⟨0, 3, 0, 3, 0, 3, 'd'⟩,
            ⟨0, 4, 0, 4, 1, 0, 'e'⟩, ⟨0, 5, 1, 1, 1, 1, 'f'⟩,
            ⟨0, 6, 1, 2, 1, 2, 'g'⟩]⟩ := by
        conv_lhs => rw [drawChars.eq_def]
        simp [checkCursor]
    _ = drawChars 10 5 (fun _ => 1) ⟨0, 0⟩ 0 8
          []
          ⟨1, 4, some (0, 0),
           [⟨0, 0, 0, 0, 0, 0, 'a'⟩, ⟨0, 1, 0, 1, 0, 1, 'b'⟩,
            ⟨0, 2, 0, 2, 0, 2, 'c'⟩, ⟨0, 3, 0, 3, 0, 3, 'd'⟩,
            ⟨0, 4, 0, 4, 1, 0, 'e'⟩, ⟨0, 5, 1, 1, 1, 1, 'f'⟩,
            ⟨0, 6, 1, 2, 1, 2, 'g'⟩, ⟨0, 7, 1, 3, 1, 3, 'h'⟩]⟩ := by
        conv_lhs => rw [drawChars.eq_def]
        simp [checkCursor]
    _ = (⟨1, 4, some (0, 0),
          [⟨0, 0, 0, 0, 0, 0, 'a'⟩, ⟨0, 1, 0, 1, 0, 1, 'b'⟩,
           ⟨0, 2, 0, 2, 0, 2, 'c'⟩, ⟨0, 3, 0, 3, 0, 3, 'd'⟩,
           ⟨0, 4, 0, 4, 1, 0, 'e'⟩, ⟨0, 5, 1, 1, 1, 1, 'f'⟩,
           ⟨0, 6, 1, 2, 1, 2, 'g'⟩, ⟨0, 7, 1, 3, 1, 3, 'h'⟩]⟩, false) := by
        conv_lhs => rw [drawChars.eq_def]
        simp [checkCursor]

/-- The full frame for the wrap scenario: line `"abcdefgh"`, terminal
`10 × 5`, cursor at the origin. -/
theorem draw_eval_scenario :
    draw 10 5 (fun _ => 1)
      ⟨[['a', 'b', 'c', 'd', 'e', 'f', 'g', 'h']], ⟨0, 0⟩, 0, none⟩ =
    ⟨2, 0, some (0, 0),
     [⟨0, 0, 0, 0, 0, 0, 'a'⟩, ⟨0, 1, 0, 1, 0, 1, 'b'⟩,
      ⟨0, 2, 0, 2, 0, 2, 'c'⟩, ⟨0, 3, 0, 3, 0, 3, 'd'⟩,
      ⟨0, 4, 0, 4, 1, 0, 'e'⟩, ⟨0, 5, 1, 1, 1, 1, 'f'⟩,
      ⟨0, 6, 1, 2, 1, 2, 'g'⟩, ⟨0, 7, 1, 3, 1, 3, 'h'⟩]⟩ := by
  show drawLines 10 5 (fun _ => 1) ⟨0, 0⟩ 0
    [['a', 'b', 'c', 'd', 'e', 'f', 'g', 'h']] ⟨0, 0, none, []⟩ = _
  rw [drawLines.eq_def]
  simp [drawChars_eval_scenario, drawLines]

/-- The frame for buffer `["ab"]`, cursor `(0, 1)`, on a narrow `5 × 2`
terminal: the cursor's character `'b'` wraps. -/
theorem draw_eval_narrow :
    draw 5 2 (fun _ => 1) ⟨[['a', 'b']], ⟨0, 1⟩, 0, none⟩ =
    ⟨2, 0, some (0, 1),
     [⟨0, 0, 0, 0, 0, 0, 'a'⟩, ⟨0, 1, 0, 1, 1, 0, 'b'⟩]⟩ := by
  have hchars : drawChars 5 2 (fun _ => 1) ⟨0, 1⟩ 0 0 ['a', 'b']
      ⟨0, 0, none, []⟩ =
      (⟨1, 1, some (0, 1),
        [⟨0, 0, 0, 0, 0, 0, 'a'⟩, ⟨0, 1, 0, 1, 1, 0, 'b'⟩]⟩, false) := by
    calc
      drawChars 5 2 (fun _ => 1) ⟨0, 1⟩ 0 0 ['a', 'b'] ⟨0, 0, none, []⟩
        = drawChars 5 2 (fun _ => 1) ⟨0, 1⟩ 0 1 ['b']
            ⟨0, 1, none, [⟨0, 0, 0, 0, 0, 0, 'a'⟩]⟩ := by
          conv_lhs => rw [drawChars.eq_def]
          simp [checkCursor]
      _ = drawChars 5 2 (fun _ => 1) ⟨0, 1⟩ 0 2 []
            ⟨1, 1, some (0, 1),
             [⟨0, 0, 0, 0, 0, 0, 'a'⟩, ⟨0, 1, 0, 1, 1, 0, 'b'⟩]⟩ := by
          conv_lhs => rw [drawChars.eq_def]
          simp [checkCursor]
      _ = (⟨1, 1, some (0, 1),
            [⟨0, 0, 0, 0, 0, 0, 'a'⟩, ⟨0, 1, 0, 1, 1, 0, 'b'⟩]⟩, false) := by
          conv_lhs => rw [drawChars.eq_def]
          simp [checkCursor]
  show drawLines 5 2 (fun _ => 1) ⟨0, 1⟩ 0 [['a', 'b']] ⟨0, 0, none, []⟩ = _
  rw [drawLines.eq_def]
  simp [hchars, drawLines]

/-- The frame for buffer `["ab"]`, cursor `(0, 1)`, on a wide `5 × 10`
terminal: no wrap, the cursor's character is drawn where recorded. -/
theorem draw_eval_wide :
    draw 5 10 (fun _ => 1) ⟨[['a', 'b']], ⟨0, 1⟩, 0, none⟩ =
    ⟨1, 0, some (0, 1),
     [⟨0, 0, 0, 0, 0, 0, 'a'⟩, ⟨0, 1, 0, 1, 0, 1, 'b'⟩]⟩ := by
  have hchars : drawChars 5 10 (fun _ => 1) ⟨0, 1⟩ 0 0 ['a', 'b']
      ⟨0, 0, none, []⟩ =
      (⟨0, 2, some (0, 1),
        [⟨0, 0, 0, 0, 0, 0, 'a'⟩, ⟨0, 1, 0, 1, 0, 1, 'b'⟩]⟩, false) := by
    calc
      drawChars 5 10 (fun _ => 1) ⟨0, 1⟩ 0 0 ['a', 'b'] ⟨0, 0, none, []⟩
        = drawChars 5 10 (fun _ => 1) ⟨0, 1⟩ 0 1 ['b']
            ⟨0, 1, none, [⟨0, 0, 0, 0, 0, 0, 'a'⟩]⟩ := by
          conv_lhs => rw [drawChars.eq_def]
          simp [checkCursor]
      _ = drawChars 5 10 (fun _ => 1) ⟨0, 1⟩ 0 2 []
            ⟨0, 2, some (0, 1),
             [⟨0, 0, 0, 0, 0, 0, 'a'⟩, ⟨0, 1, 0, 1, 0, 1, 'b'⟩]⟩ := by
          conv_lhs => rw [drawChars.eq_def]
          simp [checkCursor]
      _ = (⟨0, 2, some (0, 1),
            [⟨0, 0, 0, 0, 0, 0, 'a'⟩, ⟨0, 1, 0, 1, 0, 1, 'b'⟩]⟩, false) := by
          conv_lhs => rw [drawChars.eq_def]
          simp [checkCursor]
  show drawLines 5 10 (fun _ => 1) ⟨0, 1⟩ 0 [['a', 'b']] ⟨0, 0, none, []⟩ = _
  rw [drawLines.eq_def]
  simp [hchars, drawLines]

/-! ## Claim C6 -/

/-- **C6**: during rendering a screen-row break is forced before placing a
character exactly when its display width would make the current screen
column meet or exceed the terminal's column count (`col + width ≥ cols`,
the wrapped character landing at the start of the next screen row);
and on a width-5 terminal the line `"abcdefgh"` of width-1 characters is
emitted as the screen rows `"abcd"` and `"efgh"`. -/
theorem C6_wrap_threshold (rows cols : Nat) (width : Char → Nat)
    (s : EditerState) :
    (∀ cell ∈ (draw rows cols width s).cells, wrapOK cols width cell) ∧
    (rowChars (draw 10 5 (fun _ => 1)
        ⟨[['a', 'b', 'c', 'd', 'e', 'f', 'g', 'h']], ⟨0, 0⟩, 0, none⟩) 0 =
      ['a', 'b', 'c', 'd'] ∧
     rowChars (draw 10 5 (fun _ => 1)
        ⟨[['a', 'b', 'c', 'd', 'e', 'f', 'g', 'h']], ⟨0, 0⟩, 0, none⟩) 1 =
      ['e', 'f', 'g', 'h'] ∧
     (draw 10 5 (fun _ => 1)
        ⟨[['a', 'b', 'c', 'd', 'e', 'f', 'g', 'h']], ⟨0, 0⟩, 0, none⟩).cells.map
          (fun cell => (cell.row, cell.col, cell.ch)) =
      [(0, 0, 'a'), (0, 1, 'b'), (0, 2, 'c'), (0, 3, 'd'),
       (1, 0, 'e'), (1, 1, 'f'), (1, 2, 'g'), (1, 3, 'h')]) := by
  constructor
  · show ∀ cell ∈ (drawLines rows cols width s.cursor s.row_offset
        (s.buffer.drop s.row_offset) ⟨0, 0, none, []⟩).cells,
      wrapOK cols width cell
    exact drawLines_wrapOK rows cols width s.cursor
      (s.buffer.drop s.row_offset) s.row_offset ⟨0, 0, none, []⟩
      (fun cell hc => absurd hc (List.not_mem_nil cell))
  · rw [draw_eval_scenario]
    exact ⟨by decide, by decide, by decide⟩

/-- Witness for `C6_wrap_threshold`: the wrapped cell of `'e'` (pre-wrap
column 4, width 1, on a width-5 terminal). -/
theorem C6_wrap_threshold_witness :
    (⟨0, 4, 0, 4, 1, 0, 'e'⟩ : Cell) ∈
      (draw 10 5 (fun _ => 1)
        ⟨[['a', 'b', 'c', 'd', 'e', 'f', 'g', 'h']], ⟨0, 0⟩, 0, none⟩).cells ∧
    wrapOK 5 (fun _ => 1) ⟨0, 4, 0, 4, 1, 0, 'e'⟩ :=
  ⟨by rw [draw_eval_scenario]; decide,
   (C6_wrap_threshold 10 5 (fun _ => 1)
      ⟨[['a', 'b', 'c', 'd', 'e', 'f', 'g', 'h']], ⟨0, 0⟩, 0, none⟩).1
     ⟨0, 4, 0, 4, 1, 0, 'e'⟩ (by rw [draw_eval_scenario]; decide)⟩

/-! ## Claim C3 -/

/-- **C3** (as stated, refuted): the recorded display-cursor cell can
differ from the screen cell at which the cursor's character is drawn.  On a
2-column terminal with buffer `["ab"]` and cursor `(0, 1)` — a state
satisfying both invariants — the scan records `display_cursor = (0, 1)`
(the position before the wrap check), but the character `'b'` at logical
`(0, 1)` is then wrapped and drawn at screen cell `(1, 0)`. -/
theorem C3_counterexample :
    cursorValid ⟨[['a', 'b']], ⟨0, 1⟩, 0, none⟩ ∧
    viewportInv 5 ⟨[['a', 'b']], ⟨0, 1⟩, 0, none⟩ ∧
    (draw 5 2 (fun _ => 1)
        ⟨[['a', 'b']], ⟨0, 1⟩, 0, none⟩).display_cursor = some (0, 1) ∧
    (⟨0, 1, 0, 1, 1, 0, 'b'⟩ : Cell) ∈
      (draw 5 2 (fun _ => 1) ⟨[['a', 'b']], ⟨0, 1⟩, 0, none⟩).cells ∧
    (draw 5 2 (fun _ => 1)
        ⟨[['a', 'b']], ⟨0, 1⟩, 0, none⟩).display_cursor ≠ some (1, 0) := by
  rw [draw_eval_narrow]
  decide

/-- **C3** (amended): the display cursor is located with the same scan as
content placement, but it records the screen position *before* the wrap
check of the cursor's character: whenever the character at the cursor's
logical position is rendered, `display_cursor` equals that cell's pre-wrap
screen position, which is the cell the character actually occupies
exactly when no break is forced at it.  (`display_cursor` may also remain
`None` when the screen fills before the scan reaches the cursor.) -/
theorem C3_display_cursor (rows cols : Nat) (width : Char → Nat)
    (s : EditerState) :
    ∀ cell ∈ (draw rows cols width s).cells,
      cell.li = s.cursor.row → cell.lj = s.cursor.column →
      (draw rows cols width s).display_cursor =
        some (cell.preRow, cell.preCol) ∧
      (cell.preCol + width cell.ch < cols →
        cell.row = cell.preRow ∧ cell.col = cell.preCol) := by
  intro cell hc hli hlj
  have hc2 : cell ∈ (drawLines rows cols width s.cursor s.row_offset
      (s.buffer.drop s.row_offset) ⟨0, 0, none, []⟩).cells := hc
  constructor
  · exact drawLines_cursorInv rows cols width s.cursor
      (s.buffer.drop s.row_offset) s.row_offset ⟨0, 0, none, []⟩
      (fun c hcc => absurd hcc (List.not_mem_nil c))
      (fun c hcc => absurd hcc (List.not_mem_nil c)) cell hc2 hli hlj
  · intro hlt
    have hw := drawLines_wrapOK rows cols width s.cursor
      (s.buffer.drop s.row_offset) s.row_offset ⟨0, 0, none, []⟩
      (fun c hcc => absurd hcc (List.not_mem_nil c)) cell hc2
    unfold wrapOK at hw
    rw [if_neg (by omega)] at hw
    exact hw

/-- Witness for `C3_display_cursor`: buffer `["ab"]`, cursor `(0, 1)` on a
wide terminal; the cursor's character `'b'` is drawn unwrapped at `(0, 1)`
and the display cursor is recorded there. -/
theorem C3_display_cursor_witness :
    (⟨0, 1, 0, 1, 0, 1, 'b'⟩ : Cell) ∈
      (draw 5 10 (fun _ => 1) ⟨[['a', 'b']], ⟨0, 1⟩, 0, none⟩).cells ∧
    ((draw 5 10 (fun _ => 1)
        ⟨[['a', 'b']], ⟨0, 1⟩, 0, none⟩).display_cursor = some (0, 1) ∧
     (1 + 1 < 10 → (0 : Nat) = 0 ∧ (1 : Nat) = 1)) :=
  ⟨by rw [draw_eval_wide]; decide,
   C3_display_cursor 5 10 (fun _ => 1) ⟨[['a', 'b']], ⟨0, 1⟩, 0, none⟩
     ⟨0, 1, 0, 1, 0, 1, 'b'⟩ (by rw [draw_eval_wide]; decide) (by decide)
     (by decide)⟩

end EditerState
